import Mathlib

/-!
Shallow embedding of the pyramid view-configuration and static-asset
subsystem: `src/pyramid/static.py` and `src/pyramid/config/views.py`.

Conventions: Python strings are `String`, tuples and lists are `List`,
`None`-able values are `Option`, raised exceptions are `Except` errors,
and `dict`s are association lists.  External dependencies with fixed
contracts (the file system, `mimetypes`, `webob` accept headers, the
`os.path`/`posixpath`/`urllib` helpers and the zope adapter registry)
are modelled as explicit parameter records so that every function of the
embedding stays executable.
-/

namespace Pyramid

/-! ### static.py: path security -/

/-- Lexicographic (code-point) comparison of character lists, the order
Python's `sorted` uses on strings. -/
def charListLe : List Char → List Char → Bool
  | [], _ => true
  | _ :: _, [] => false
  | a :: as, b :: bs => if a < b then true else if b < a then false else charListLe as bs

/-- Python string comparison `a <= b` (lexicographic by code point). -/
def strLe (a b : String) : Bool := charListLe a.data b.data

/-- Python `str.endswith`: a character-level suffix test. -/
def strEndsWith (s p : String) : Bool := p.data.isSuffixOf s.data

/-- Python `str.startswith`: a character-level prefix test. -/
def strStartsWith (s p : String) : Bool := p.data.isPrefixOf s.data

/-- `os.sep` on the posix platforms this code targets. -/
def os_sep : Char := '/'

/-- `_seps = {'/', os.sep}` from `static.py`. -/
def _seps : List Char := ['/', os_sep]

/-- `_contains_slash(item)` from `static.py` (`sep in item` is a
character-membership test). -/
def _contains_slash (item : String) : Bool :=
  _seps.any fun sep => item.data.contains sep

/-- `_has_insecure_pathelement = {'..', '.', ''}.intersection` from
`static.py`, applied to a path tuple: true iff some element is in the
insecure set. -/
def _has_insecure_pathelement (path_tuple : List String) : Bool :=
  path_tuple.any fun item => item == ".." || item == "." || item == ""

/-- `_secure_path(path_tuple)` from `static.py` (the `lru_cache` is a pure
memoisation and is omitted). -/
def _secure_path (path_tuple : List String) : Option String :=
  if _has_insecure_pathelement path_tuple then none
  else if path_tuple.any fun item => _contains_slash item then none
  else some (String.intercalate "/" path_tuple)

/-! ### static.py: the static view -/

/-- The result of `request.accept_encoding.acceptable_offers(offers)`: the
`webob` `Accept-Encoding` header object, external to this repository,
modelled by its one used method (returning `(offer, quality)` pairs). -/
structure AcceptEncodingHeader where
  acceptableOffers : List String → List (String × Nat)

/-- The slice of a pyramid `Request` used by `static_view`.
`pathInfoTraversal` stands for `traversal_path_info(request.path_info)`,
whose implementation lives in `pyramid.traversal`, outside `src/`. -/
structure StaticRequest where
  subpath : List String
  pathInfoTraversal : List String
  pathUrl : String
  url : String
  queryString : String
  acceptEncoding : Option AcceptEncodingHeader

/-- The external world `static.py` reads: `pkg_resources`, `os.path`,
`mimetypes`.  `normpathcase` is `normcase(normpath(.))` and `guessType`
is the content-type component of `pyramid.response._guess_type`. -/
structure FileSystem where
  resourceExists : String → String → Bool
  resourceFilename : String → String → String
  resourceIsdir : String → String → Bool
  osExists : String → Bool
  osIsdir : String → Bool
  getsize : String → Nat
  normpathcase : String → String
  guessType : String → Option String

/-- Exceptions raised by `static_view`. -/
inductive StaticError
  | httpNotFound (detail : String)
  | httpMovedPermanently (location : String)
  deriving DecidableEq

/-- The `static_view` instance state set up by `static_view.__init__`
(`filemap`, the request-independent cache keyed by `reload`, is omitted:
over a fixed `FileSystem` it is observationally transparent). -/
structure static_view where
  cache_max_age : Option Nat
  package_name : Option String
  docroot : String
  norm_docroot : String
  index : String
  use_subpath : Bool
  content_encodings : List (String × List String)

/-- `str.rstrip('/')` (character-level). -/
def rstripSlash (s : String) : String :=
  ⟨(s.data.reverse.dropWhile fun c => c == '/').reverse⟩

/-- `static_view.find_resource_path`. -/
def static_view.find_resource_path (sv : static_view) (fs : FileSystem)
    (name : String) : Option String :=
  match sv.package_name with
  | some pkg =>
      if fs.resourceExists pkg name then some (fs.resourceFilename pkg name) else none
  | none => if fs.osExists name then some name else none

/-- `static_view.get_possible_files`: identity entry, then one entry per
configured encoding extension, sorted by file size (smallest first). -/
def static_view.get_possible_files (sv : static_view) (fs : FileSystem)
    (resource_name : String) : List (String × Option String) :=
  let result :=
    (match sv.find_resource_path fs resource_name with
     | some path => [(path, (none : Option String))]
     | none => []) ++
    sv.content_encodings.flatMap fun ee =>
      ee.2.filterMap fun ext =>
        (sv.find_resource_path fs (resource_name ++ ext)).map fun path => (path, some ee.1)
  List.insertionSort (fun a b => fs.getsize a.1 ≤ fs.getsize b.1) result

/-- `static_view.find_best_match`. -/
def static_view.find_best_match (_sv : static_view) (request : StaticRequest)
    (files : List (String × Option String)) : Option String × Option String :=
  match request.acceptEncoding with
  | none => (((files.find? fun pe => pe.2.isNone).map fun pe => pe.1), none)
  | some ae =>
      let offers := files.filterMap fun pe => pe.2
      let acceptable_encodings := (ae.acceptableOffers offers).map fun x => x.1
      match files.find? fun pe =>
          match pe.2 with
          | none => true
          | some e => acceptable_encodings.contains e with
      | some pe => (some pe.1, pe.2)
      | none => (none, none)

/-- `static_view.add_slash_redirect`. -/
def static_view.add_slash_redirect (request : StaticRequest) : StaticError :=
  let url := request.pathUrl ++ "/"
  let url := if request.queryString ≠ "" then url ++ "?" ++ request.queryString else url
  .httpMovedPermanently url

/-- `static_view.get_resource_name`. -/
def static_view.get_resource_name (sv : static_view) (fs : FileSystem)
    (request : StaticRequest) : Except StaticError String :=
  let path_tuple := if sv.use_subpath then request.subpath else request.pathInfoTraversal
  match _secure_path path_tuple with
  | none => .error (.httpNotFound ("Out of bounds: " ++ request.url))
  | some path =>
    match sv.package_name with
    | some pkg =>
        let resource_path := rstripSlash sv.docroot ++ "/" ++ path
        if fs.resourceIsdir pkg resource_path then
          if ¬ strEndsWith request.pathUrl "/" then
            .error (static_view.add_slash_redirect request)
          else
            .ok (rstripSlash resource_path ++ "/" ++ sv.index)
        else .ok resource_path
    | none =>
        let resource_path := fs.normpathcase (sv.norm_docroot ++ "/" ++ path)
        if fs.osIsdir resource_path then
          if ¬ strEndsWith request.pathUrl "/" then
            .error (static_view.add_slash_redirect request)
          else
            .ok (resource_path ++ "/" ++ sv.index)
        else .ok resource_path

/-- A `pyramid.response.FileResponse` as observed by the claims: the
constructor arguments plus the mutable `Vary` header list. -/
structure FileResponseT where
  path : String
  cache_max_age : Option Nat
  content_type : Option String
  content_encoding : Option String
  vary : Option (List String)
  deriving DecidableEq

/-- `FileResponse(path, request, cache_max_age, content_type,
content_encoding)`: the external constructor; a fresh file response
carries no `Vary` header. -/
def FileResponse (path : String) (cache_max_age : Option Nat)
    (content_type content_encoding : Option String) : FileResponseT :=
  { path, cache_max_age, content_type, content_encoding, vary := none }

/-- `_add_vary(response, option)` from `static.py`. -/
def _add_vary (response : FileResponseT) (option : String) : FileResponseT :=
  let vary := response.vary.getD []
  if vary.any fun x => x.toLower == option.toLower then { response with vary := some vary }
  else { response with vary := some (vary ++ [option]) }

/-- `static_view.__call__` (exceptions from `get_resource_name`
propagate). -/
def static_view.call (sv : static_view) (fs : FileSystem) (_context : Unit)
    (request : StaticRequest) : Except StaticError FileResponseT :=
  match sv.get_resource_name fs request with
  | .error e => .error e
  | .ok resource_name =>
    let files := sv.get_possible_files fs resource_name
    let fbm := sv.find_best_match request files
    match fbm.1 with
    | none => .error (.httpNotFound request.url)
    | some filepath =>
        let content_type := fs.guessType resource_name
        let response := FileResponse filepath sv.cache_max_age content_type fbm.2
        let response :=
          if files.length > 1 then _add_vary response "Accept-Encoding" else response
        .ok response

/-! ### config/views.py: MultiView -/

/-- `pyramid.config.predicates.DEFAULT_PHASH` (outside `src/`): the fixed
hash of the empty predicate list, `md5().hexdigest()`. -/
def DEFAULT_PHASH : String := "d41d8cd98f00b204e9800998ecf8427e"

/-- `pyramid.config.predicates.MAX_ORDER` (outside `src/`): `1 << 30`. -/
def MAX_ORDER : Nat := 2 ^ 30

/-- An entry of `MultiView.views` / `MultiView.media_views[accept]`:
`(order, view, phash)`. -/
abbrev MVEntry (α : Type) := Nat × α × Option String

/-- The `MultiView` instance state, generic in the type of the stored view
callables. -/
structure MultiView (α : Type) where
  name : String
  media_views : List (String × List (MVEntry α))
  views : List (MVEntry α)
  accepts : List String
  deriving DecidableEq

/-- Replace the first element satisfying `p` with `e`; `none` when no
element satisfies `p` (the `for ... if cond: xs[i] = e; return` idiom). -/
def updateFirst (p : MVEntry α → Bool) (e : MVEntry α) :
    List (MVEntry α) → Option (List (MVEntry α))
  | [] => none
  | x :: xs => if p x then some (e :: xs) else (updateFirst p e xs).map (x :: ·)

/-- Python `dict` read access (`m.get(k)`), on an association list. -/
def assocGet (m : List (String × β)) (k : String) : Option β :=
  (m.find? fun kv => kv.1 == k).map fun kv => kv.2

/-- Python `dict` write access (`m[k] = v`), on an association list. -/
def assocSet : List (String × β) → String → β → List (String × β)
  | [], k, v => [(k, v)]
  | kv :: rest, k, v => if kv.1 == k then (k, v) :: rest else kv :: assocSet rest k v

/-- The sort key of `views.sort(key=operator.itemgetter(0))`. -/
def orderLe (a b : MVEntry α) : Prop := a.1 ≤ b.1

instance : DecidableRel (@orderLe α) := fun a b => Nat.decLe a.1 b.1

instance : IsTotal (MVEntry α) orderLe := ⟨fun a b => Nat.le_total a.1 b.1⟩

instance : IsTrans (MVEntry α) orderLe := ⟨fun _ _ _ => Nat.le_trans⟩

/-- `MultiView.add(view, order, phash, accept, accept_order)`.
`sort_accept_offers` lives in `pyramid.config.predicates`, outside `src/`,
and is passed in explicitly; `accept_order` models the `IAcceptOrder`
utility by the result of its `sorted()` method. -/
def MultiView.add (mv : MultiView α) (view : α) (order : Nat) (phash : Option String)
    (accept : Option String) (accept_order : Option (List (Nat × String)))
    (sort_accept_offers : List String → Option (List String) → List String) :
    MultiView α :=
  match phash, updateFirst (fun svh => svh.2.2 == phash) (order, view, phash) mv.views with
  | some _, some views' => { mv with views := views' }
  | _, _ =>
    match accept with
    | none =>
        { mv with views := List.insertionSort orderLe (mv.views ++ [(order, view, phash)]) }
    | some acc =>
        let subset := (assocGet mv.media_views acc).getD []
        match updateFirst (fun svh => svh.2.2 == phash) (order, view, phash) subset with
        | some subset' => { mv with media_views := assocSet mv.media_views acc subset' }
        | none =>
            let subset' := List.insertionSort orderLe (subset ++ [(order, view, phash)])
            let accepts := if acc ∈ mv.accepts then mv.accepts else mv.accepts ++ [acc]
            let accept_order' := accept_order.map fun ao => ao.map fun wv => wv.2
            { mv with
              media_views := assocSet mv.media_views acc subset',
              accepts := sort_accept_offers accepts accept_order' }

/-- All view callables stored in a `MultiView` (in `views` or in any
`media_views` list). -/
def allViews (mv : MultiView α) : List α :=
  (mv.views.map fun e => e.2.1) ++
    mv.media_views.flatMap fun kl => kl.2.map fun e => e.2.1

/-- A `views`/`media_views` list is sorted in ascending order of the
`order` component. -/
def sortedByOrder (l : List (MVEntry α)) : Prop :=
  List.Sorted orderLe l

/-- Two entries may not carry the same non-default predicate hash (an
absent hash, or the `DEFAULT_PHASH` of the empty predicate list, may
repeat). -/
def entryRelOk (x y : MVEntry α) : Prop :=
  ∀ p, p ≠ DEFAULT_PHASH → x.2.2 = some p → y.2.2 ≠ some p

/-- No two entries of the list share a non-default predicate hash. -/
def noDupNonDefaultPhash (l : List (MVEntry α)) : Prop :=
  List.Pairwise entryRelOk l

/-- The C5 invariant over a `MultiView`: `views` and every media list are
sorted by ascending order and free of duplicate non-default hashes. -/
def MVInv (mv : MultiView α) : Prop :=
  sortedByOrder mv.views ∧ noDupNonDefaultPhash mv.views ∧
  ∀ kl ∈ mv.media_views, sortedByOrder kl.2 ∧ noDupNonDefaultPhash kl.2

/-- The slice of a pyramid `Request` used by `MultiView.get_views`:
`hasattr(request, 'accept')` and the `webob` method
`request.accept.acceptable_offers(offers)` (external). -/
structure MvRequest where
  hasAccept : Bool
  acceptableOffers : List String → List (String × Nat)

/-- `MultiView.get_views(request)`. -/
def MultiView.get_views (mv : MultiView α) (request : MvRequest) :
    List (MVEntry α) :=
  if mv.accepts ≠ [] ∧ request.hasAccept then
    ((request.acceptableOffers mv.accepts).flatMap fun om =>
      (assocGet mv.media_views om.1).getD []) ++ mv.views
  else mv.views

/-- The `PredicateMismatch` exception, carrying the multiview's name. -/
structure PredicateMismatch where
  name : String
  deriving DecidableEq

/-- A view callable as seen by `MultiView.match`: its `__predicated__`
attribute when present (`hasattr`), over contexts modelled as `Nat`. -/
structure CView where
  tag : Nat
  predicated : Option (Nat → MvRequest → Bool)

/-- A view entry qualifies for `MultiView.match` when its view has no
`__predicated__` attribute or `__predicated__(context, request)` is true. -/
def viewQualifies (context : Nat) (request : MvRequest) (e : MVEntry CView) : Bool :=
  match e.2.1.predicated with
  | none => true
  | some p => p context request

/-- The `for order, view, phash in ...` loop body of `MultiView.match`. -/
def matchGo (context : Nat) (request : MvRequest) (name : String) :
    List (MVEntry CView) → Except PredicateMismatch CView
  | [] => .error ⟨name⟩
  | e :: rest =>
      match e.2.1.predicated with
      | none => .ok e.2.1
      | some p => if p context request then .ok e.2.1 else matchGo context request name rest

/-- `MultiView.match(context, request)` (named `match'` because `match` is
reserved in Lean). -/
def MultiView.match' (mv : MultiView CView) (context : Nat) (request : MvRequest) :
    Except PredicateMismatch CView :=
  matchGo context request mv.name (mv.get_views request)

/-! ### config/views.py: register_view -/

/-- A derived view callable as seen by `register_view`: its `__order__`,
`__phash__` and `__accept__` attributes (absent attributes are read with
`getattr` defaults), whether it has `__call_permissive__` (which selects
`ISecuredView` over `IView`), and a tag standing for the callable's
identity. -/
structure DView where
  tag : Nat
  order : Option Nat
  phash : Option String
  accept : Option String
  securable : Bool
  deriving DecidableEq

/-- The zope adapter registrations for one exact
`(classifier, request-type, name)` triad: one slot per `provided`
interface, because `registry.adapters.registered` performs exact matches
(see the comment in `register_view`). -/
structure TriadState where
  iview : Option DView
  isecured : Option DView
  imultiview : Option (MultiView DView)
  deriving DecidableEq

/-- What the `for view_type in (IView, ISecuredView, IMultiView)` lookup
loop of `register_view` can find. -/
inductive OldView
  | single (v : DView)
  | multi (m : MultiView DView)
  deriving DecidableEq

/-- The `old_view` lookup loop of `register_view`: the three interfaces
are tried in the order `IView`, `ISecuredView`, `IMultiView` and the
first registration found wins. -/
def TriadState.registeredOld (s : TriadState) : Option OldView :=
  match s.iview with
  | some v => some (.single v)
  | none =>
    match s.isecured with
    | some v => some (.single v)
    | none => s.imultiview.map .multi

/-- `register_view(classifier, request_iface, derived_view)` from
`add_view`, acting on the state of one triad.  `order` and `phash` are
`view_intr['order']` / `view_intr['phash']` (the phash is always a
string there), `accept_order` is the `IAcceptOrder` utility. -/
def register_view (s : TriadState) (derived_view : DView) (order : Nat)
    (phash : String) (accept : Option String)
    (accept_order : Option (List (Nat × String)))
    (sort_accept_offers : List String → Option (List String) → List String)
    (name : String) : TriadState :=
  let old_view := s.registeredOld
  let old_phash :=
    match old_view with
    | some (.single v) => v.phash.getD DEFAULT_PHASH
    | _ => DEFAULT_PHASH
  let is_multiview := match old_view with | some (.multi _) => true | _ => false
  let want_multiview := is_multiview || (old_view.isSome && old_phash != phash)
  if ¬ want_multiview then
    if derived_view.securable then { s with isecured := some derived_view }
    else { s with iview := some derived_view }
  else
    let multiview :=
      match old_view with
      | some (.multi m) => m
      | some (.single ov) =>
          -- accept_order is not passed here: the next add re-sorts anyway
          (MultiView.mk name [] [] []).add ov (ov.order.getD MAX_ORDER)
            (some (ov.phash.getD DEFAULT_PHASH)) ov.accept none sort_accept_offers
      | none => MultiView.mk name [] [] []   -- unreachable: want_multiview needs old_view
    let multiview :=
      multiview.add derived_view order (some phash) accept accept_order sort_accept_offers
    -- existing IView / ISecuredView registrations are unregistered and the
    -- multiview is registered under IMultiView
    { iview := none, isecured := none, imultiview := some multiview }

/-- The triad state holding exactly one single view, registered under the
interface matching its securedness. -/
def mkSingle (v : DView) : TriadState :=
  if v.securable then ⟨none, some v, none⟩ else ⟨some v, none, none⟩

/-! ### config/views.py: view derivers -/

/-- `pyramid.viewderivers.INGRESS` (outside `src/`): the sentinel naming
the view pipeline ingress. -/
def INGRESS : String := "INGRESS"

/-- `pyramid.viewderivers.VIEW` (outside `src/`): the sentinel naming the
user view end of the pipeline. -/
def VIEW : String := "VIEW"

/-- `pyramid.util.as_sorted_tuple` (outside `src/`): a sorted tuple of the
given constraint names. -/
def as_sorted_tuple (v : List String) : List String :=
  List.insertionSort (fun a b => strLe a b = true) v

/-- The `ConfigurationError`s raised by `add_view_deriver`. -/
inductive ConfigurationError
  | reservedDeriverName (name : String)
  | overIngress (name : String)
  | underView (name : String)
  | underMappedView (name : String)
  deriving DecidableEq

/-- A view deriver registration: the name plus its normalized `over` and
`under` constraints as handed to `TopologicalSorter.add(name, deriver,
before=over, after=under)`. -/
structure DeriverDecl where
  name : String
  over : List String
  under : List String
  deriving DecidableEq

/-- `add_view_deriver(deriver, name, under, over)`: the validation and
constraint normalization (the deriver callable itself plays no role in
the registration order). -/
def add_view_deriver (name : String) (under over : Option (List String)) :
    Except ConfigurationError DeriverDecl :=
  if name = INGRESS ∨ name = VIEW then .error (.reservedDeriverName name)
  else
    let under := under.getD ["decorated_view"]
    let over := over.getD ["rendered_view"]
    let over := as_sorted_tuple over
    let under := as_sorted_tuple under
    if INGRESS ∈ over then .error (.overIngress name)
    else
      -- ensure everything is always over mapped_view
      let over :=
        if VIEW ∈ over ∧ name ≠ "mapped_view" then as_sorted_tuple (over ++ ["mapped_view"])
        else over
      if VIEW ∈ under then .error (.underView name)
      else if "mapped_view" ∈ under then .error (.underMappedView name)
      else .ok ⟨name, over, under⟩

/-- Modelled from the spec: `pyramid.util.TopologicalSorter` (not under
`src/`); the spec describes it as "dependency-based orderings
(topological sort with before/after constraints)" with the virtual
endpoints `first=INGRESS`, `last=VIEW`.  A node `m` must precede `n`
when `m` appears in `n`'s `after` list or `n` appears in `m`'s `before`
list (constraints naming the virtual endpoints are satisfied by
construction). -/
def mustPrecede (m n : DeriverDecl) : Bool :=
  n.under.contains m.name || m.over.contains n.name

/-- Modelled from the spec: the deterministic Kahn procedure — repeatedly
emit the earliest-added node whose required predecessors have all been
emitted. -/
def topoGo : Nat → List DeriverDecl → List String
  | 0, _ => []
  | fuel + 1, remaining =>
    match remaining.find? fun n =>
        remaining.all fun m => m.name == n.name || ¬ mustPrecede m n with
    | none => []   -- cyclic constraints; not reached by the defaults
    | some n => n.name :: topoGo fuel (remaining.filter fun m => m.name ≠ n.name)

/-- Modelled from the spec: `TopologicalSorter.sorted()` over the
registered deriver declarations. -/
def topoSorted (nodes : List DeriverDecl) : List String :=
  topoGo nodes.length nodes

/-- The deriver names registered by `add_default_view_derivers`, in
registration order (each `under` the previous one and `over=VIEW`). -/
def defaultDeriverNames : List String :=
  ["secured_view", "owrapped_view", "http_cached_view", "decorated_view",
   "rendered_view", "mapped_view"]

/-- `add_default_view_derivers`: the chained registrations plus the
loosely-coupled `csrf_view`. -/
def add_default_view_derivers : Except ConfigurationError (List DeriverDecl) := do
  let mut nodes : List DeriverDecl := []
  let mut last := INGRESS
  for name in defaultDeriverNames do
    let d ← add_view_deriver name (some [last]) (some [VIEW])
    nodes := nodes ++ [d]
    last := name
  let d ← add_view_deriver "csrf_view" (some ["secured_view"]) (some ["owrapped_view"])
  nodes := nodes ++ [d]
  pure nodes

/-- `_apply_view_derivers(info)`: the fixed outer derivers are prepended
to the topologically sorted ones and the view is wrapped by each in
reversed order, so the result lists the wrapper names from outermost
(request ingress) to innermost (user view). -/
def _apply_view_derivers (sortedDerivers : List String) : List String :=
  let outer_derivers := ["attr_wrapped_view", "predicated_view"]
  ((outer_derivers ++ sortedDerivers).reverse).foldl (fun view name => name :: view) []

/-! ### config/views.py: StaticURLInfo -/

/-- The keyword-argument dict threaded through `generate` and the cache
busters, as an association list (the values the claims observe are
strings). -/
abbrev KW := List (String × String)

/-- An `ICacheBuster` callable: `cachebust(request, subpath, kw)` (the
request argument plays no role in the claims and is omitted). -/
abbrev CacheBust := String → KW → String × KW

/-- One element of `StaticURLInfo.cache_busters`. -/
structure CacheBusterEntry where
  spec : String
  cachebust : CacheBust
  explicit : Bool

/-- The `StaticURLInfo` instance state: `registrations` holds
`(url, spec, route_name)` triples. -/
structure StaticURLInfo where
  registrations : List (Option String × String × Option String)
  cache_busters : List CacheBusterEntry

/-- The external url machinery `generate` and `_bust_asset_path` call
into: `request.route_url`, `parse_url_overrides`, `urlparse`/`urlunparse`
scheme fixing, `urllib.quote`, `urljoin`, and the `IPackageOverrides`
lookup yielding the raw spec of an overridden resource. -/
structure UrlEnv where
  scheme : String
  routeUrl : Option String → KW → String
  parseUrlOverrides : KW → String × String × String
  fixScheme : String → String → String
  quote : String → String
  urljoin : String → String → String
  rawspecOverride : String → String → Option String

/-- Split a character list at the first occurrence of `c`; `none` when
`c` does not occur. -/
def splitFirstChar (c : Char) : List Char → Option (List Char × List Char)
  | [] => none
  | x :: xs =>
      if x = c then some ([], xs)
      else (splitFirstChar c xs).map fun p => (x :: p.1, p.2)

/-- `pyramid.asset.resolve_asset_spec` (outside `src/`), at its default
`pname='__main__'` as called from `_bust_asset_path`: an absolute path
has no package, a `package:path` spec is split at the first colon
(`spec.split(':', 1)`), and a relative colon-free path keeps the default
package `__main__` (in `static.py` this same contract is what makes an
absolute `root_dir` bypass package overrides). -/
def resolve_asset_spec (spec : String) : Option String × String :=
  if strStartsWith spec "/" then (none, spec)
  else
    match splitFirstChar ':' spec.data with
    | some p => (some ⟨p.1⟩, ⟨p.2⟩)
    | none => (some "__main__", spec)

/-- `posixpath.join` for the two-argument uses in `_bust_asset_path`. -/
def posixpathJoin (a b : String) : String :=
  if strStartsWith b "/" then b
  else if strEndsWith a "/" || a = "" then a ++ b
  else a ++ "/" ++ b

/-- The `for spec_, cachebust, explicit in reversed(self.cache_busters)`
loop of `_bust_asset_path`: apply the first matching buster and stop. -/
def bustScan (subpath : String) (kw : KW) (pathspec rawspec : String) :
    List CacheBusterEntry → String × KW
  | [] => (subpath, kw)
  | cb :: rest =>
      if (cb.explicit && strStartsWith rawspec cb.spec) ||
         (!cb.explicit && strStartsWith pathspec cb.spec) then
        cb.cachebust subpath kw
      else bustScan subpath kw pathspec rawspec rest

/-- `StaticURLInfo._bust_asset_path(request, spec, subpath, kw)`. -/
def StaticURLInfo._bust_asset_path (info : StaticURLInfo) (env : UrlEnv)
    (spec subpath : String) (kw : KW) : String × KW :=
  let pk := resolve_asset_spec spec
  let pathspec :=
    match pk.1 with
    | some p => p ++ ":" ++ pk.2 ++ subpath
    | none => pk.2 ++ subpath
  let rawspec :=
    (match pk.1 with
     | some p => env.rawspecOverride p (posixpathJoin pk.2 subpath)
     | none => none).getD pathspec
  let kw := assocSet (assocSet kw "pathspec" pathspec) "rawspec" rawspec
  bustScan subpath kw pathspec rawspec info.cache_busters.reverse

/-- The `ValueError` raised by `generate` when no registration matches. -/
inductive GenerateError
  | valueError (path : String)
  deriving DecidableEq

/-- The loop body of `StaticURLInfo.generate` for a matching
registration `(url, spec, route_name)`. -/
def generateBody (info : StaticURLInfo) (env : UrlEnv) (kw : KW)
    (url : Option String) (spec : String) (route_name : Option String)
    (path : String) : String :=
  let subpath := path.drop spec.length
  let sk :=
    if ¬ info.cache_busters.isEmpty then info._bust_asset_path env spec subpath kw
    else (subpath, kw)
  match url with
  | none => env.routeUrl route_name (assocSet sk.2 "subpath" sk.1)
  | some url =>
      let qsa := env.parseUrlOverrides sk.2
      let url := env.fixScheme env.scheme url
      env.urljoin url (env.quote sk.1) ++ qsa.2.1 ++ qsa.2.2

/-- The `for (url, spec, route_name) in self.registrations` loop of
`generate`. -/
def generateGo (info : StaticURLInfo) (env : UrlEnv) (kw : KW) (path : String) :
    List (Option String × String × Option String) → Except GenerateError String
  | [] => .error (.valueError path)
  | reg :: rest =>
      if strStartsWith path reg.2.1 then
        .ok (generateBody info env kw reg.1 reg.2.1 reg.2.2 path)
      else generateGo info env kw path rest

/-- `StaticURLInfo.generate(path, request, **kw)`. -/
def StaticURLInfo.generate (info : StaticURLInfo) (env : UrlEnv)
    (path : String) (kw : KW) : Except GenerateError String :=
  generateGo info env kw path info.registrations

/-- The duplicate/insertion-point scan of `add_cache_buster`'s `register`:
returns `(new_idx, found_duplicate)`; `none` means the loop ran off the
end (append). -/
def addCacheBusterScan (spec : String) (explicit : Bool) (idx : Nat) :
    List CacheBusterEntry → Option (Nat × Bool)
  | [] => none
  | e :: rest =>
      if spec = e.spec ∧ explicit = e.explicit then some (idx, true)
      else if !explicit && e.explicit then some (idx, false)
      else if explicit = e.explicit ∧ spec.length < e.spec.length then some (idx, false)
      else addCacheBusterScan spec explicit (idx + 1) rest

/-- `StaticURLInfo.add_cache_buster(config, spec, cachebust, explicit)`:
the spec normalization plus the deferred `register` (the
`pyramid.prevent_cachebust` setting is taken as unset). -/
def StaticURLInfo.add_cache_buster (info : StaticURLInfo) (spec : String)
    (cachebust : CacheBust) (explicit : Bool) : StaticURLInfo :=
  let sep := "/"   -- posix: the spec is not an absolute windows path
  let spec := if ¬ strEndsWith spec sep ∧ ¬ strEndsWith spec ":" then spec ++ sep else spec
  let cbs := info.cache_busters
  let scan := (addCacheBusterScan spec explicit 0 cbs).getD (cbs.length, false)
  let cbs := if scan.2 then cbs.eraseIdx scan.1 else cbs
  { info with cache_busters := cbs.insertIdx scan.1 ⟨spec, cachebust, explicit⟩ }

/-- Whether an `Except` value is an error. -/
def exceptIsError : Except ε α → Bool
  | .error _ => true
  | .ok _ => false

instance {ε α : Type} [DecidableEq ε] [DecidableEq α] :
    DecidableEq (Except ε α) := fun a b =>
  match a, b with
  | .error x, .error y =>
      if h : x = y then isTrue (congrArg Except.error h)
      else isFalse fun hc => h (by injection hc)
  | .ok x, .ok y =>
      if h : x = y then isTrue (congrArg Except.ok h)
      else isFalse fun hc => h (by injection hc)
  | .error _, .ok _ => isFalse fun hc => Except.noConfusion hc
  | .ok _, .error _ => isFalse fun hc => Except.noConfusion hc

/-! ### Concrete instances used by witnesses and counterexamples -/

/-- A cache buster marking its application by prefixing `ONE/`. -/
def cbONE : CacheBust := fun s kw => ("ONE/" ++ s, kw)

/-- A cache buster marking its application by prefixing `TWO/`. -/
def cbTWO : CacheBust := fun s kw => ("TWO/" ++ s, kw)

/-- Two cache busters registered through `add_cache_buster`: first the
`p:a/b/` buster, then (more recently) the `p:a/` buster, which
`add_cache_buster` inserts in front because its spec is shorter. -/
def infoCB : StaticURLInfo :=
  (({ registrations := [], cache_busters := [] } : StaticURLInfo).add_cache_buster
      "p:a/b" cbONE false).add_cache_buster "p:a" cbTWO false

/-- A dummy url environment with no package overrides. -/
def envW : UrlEnv :=
  ⟨"http", fun _ _ => "", fun _ => ("", "", ""), fun _ u => u, id,
   fun a b => a ++ b, fun _ _ => none⟩

/-- A file system on which nothing exists. -/
def fsEmpty : FileSystem :=
  ⟨fun _ _ => false, fun _ _ => "", fun _ _ => false, fun _ => false,
   fun _ => false, fun _ => 0, id, fun _ => none⟩

/-- A subpath-based static view over a plain directory. -/
def svPlain : static_view :=
  ⟨some 3600, none, "root", "root", "index.html", true, []⟩

/-- A request whose subpath contains a `..` path element. -/
def reqDotDot : StaticRequest :=
  ⟨[".."], [], "u", "u", "", none⟩

/-- A file system on which every file exists (with size 0, no
directories) and every content type guesses to `text/plain`. -/
def fsOne : FileSystem :=
  ⟨fun _ _ => true, fun _ n => n, fun _ _ => false, fun _ => true,
   fun _ => false, fun _ => 0, id, fun _ => some "text/plain"⟩

/-- A request for `a.txt` carrying no `Accept-Encoding` header. -/
def reqNoAE : StaticRequest := ⟨["a.txt"], [], "u", "u", "", none⟩

/-- An unsecured view with predicate hash `p`. -/
def oldU : DView := ⟨0, some 1, some "p", none, false⟩

/-- A secured view with the same predicate hash `p`. -/
def newS : DView := ⟨1, some 1, some "p", none, true⟩

/-- An unsecured view with the same predicate hash `p` and a new tag. -/
def dvU : DView := ⟨1, some 1, some "p", none, false⟩

/-- A multiview whose `views` list is sorted and has two distinct
non-default hashes. -/
def mvCE : MultiView Nat :=
  ⟨"n", [], [(1, 10, some "p1"), (2, 20, some "p2")], []⟩

/-- A static url registration list with one registered url. -/
def infoReg : StaticURLInfo :=
  { registrations := [(some "http://cdn/", "st/", none)], cache_busters := [] }

/-- The claim's notion of an encoding acceptable to the client: either the
identity (`None`) or an offer accepted by the `Accept-Encoding` header
among the encodings present in the file list. -/
def encodingAcceptable (ae : AcceptEncodingHeader)
    (files : List (String × Option String)) (enc : Option String) : Prop :=
  enc = none ∨ ∃ e, enc = some e ∧
    e ∈ (ae.acceptableOffers (files.filterMap fun pe => pe.2)).map fun x => x.1

/-! ### Lemmas -/

theorem get_possible_files_sorted (sv : static_view) (fs : FileSystem) (name : String) :
    List.Sorted (fun a b => fs.getsize a.1 ≤ fs.getsize b.1)
      (sv.get_possible_files fs name) := by
  haveI : IsTotal (String × Option String) (fun a b => fs.getsize a.1 ≤ fs.getsize b.1) :=
    ⟨fun a b => Nat.le_total _ _⟩
  haveI : IsTrans (String × Option String) (fun a b => fs.getsize a.1 ≤ fs.getsize b.1) :=
    ⟨fun _ _ _ => Nat.le_trans⟩
  exact List.sorted_insertionSort _ _

theorem find?_min_of_sorted {α : Type} (key : α → Nat) (p : α → Bool) :
    ∀ l : List α, List.Sorted (fun a b => key a ≤ key b) l →
      ∀ x, l.find? p = some x → ∀ y ∈ l, p y = true → key x ≤ key y := by
  intro l
  induction l with
  | nil => intro _ x hx; cases hx
  | cons a l ih =>
      intro hs x hx y hy hpy
      rw [List.find?_cons] at hx
      cases hpa : p a with
      | true =>
          simp only [hpa] at hx
          injection hx with hx
          subst hx
          rcases List.mem_cons.mp hy with rfl | hy
          · exact Nat.le_refl _
          · exact (List.sorted_cons.mp hs).1 y hy
      | false =>
          simp only [hpa] at hx
          rcases List.mem_cons.mp hy with rfl | hy
          · rw [hpy] at hpa; cases hpa
          · exact ih (List.sorted_cons.mp hs).2 x hx y hy hpy

theorem encodingAcceptable_iff (ae : AcceptEncodingHeader)
    (files : List (String × Option String)) (pe : String × Option String) :
    ((match pe.2 with
      | none => true
      | some e =>
          ((ae.acceptableOffers (files.filterMap fun pe => pe.2)).map fun x => x.1).contains e)
      = true) ↔ encodingAcceptable ae files pe.2 := by
  cases h2 : pe.2 with
  | none => simp [encodingAcceptable]
  | some e => simp [encodingAcceptable]

theorem hip_iff (t : List String) :
    _has_insecure_pathelement t = true ↔ ∃ i ∈ t, i = ".." ∨ i = "." ∨ i = "" := by
  simp [_has_insecure_pathelement, List.any_eq_true, or_assoc]

theorem contains_slash_iff (i : String) :
    _contains_slash i = true ↔ (i.data.contains '/' = true ∨ i.data.contains os_sep = true) := by
  simp [_contains_slash, _seps]

theorem matchGo_eq_find (context : Nat) (request : MvRequest) (name : String)
    (l : List (MVEntry CView)) :
    matchGo context request name l =
      match l.find? (viewQualifies context request) with
      | some e => .ok e.2.1
      | none => .error ⟨name⟩ := by
  induction l with
  | nil => rfl
  | cons e rest ih =>
      rw [matchGo, List.find?_cons]
      cases hp : e.2.1.predicated with
      | none => simp [viewQualifies, hp]
      | some p =>
          by_cases hpc : p context request
          · simp [viewQualifies, hp, hpc]
          · simp [viewQualifies, hp, hpc, ih]

theorem generateGo_eq_find (info : StaticURLInfo) (env : UrlEnv) (kw : KW)
    (path : String) (regs : List (Option String × String × Option String)) :
    generateGo info env kw path regs =
      match regs.find? (fun reg => strStartsWith path reg.2.1) with
      | some reg => .ok (generateBody info env kw reg.1 reg.2.1 reg.2.2 path)
      | none => .error (.valueError path) := by
  induction regs with
  | nil => rfl
  | cons r rest ih =>
      rw [generateGo, List.find?_cons]
      by_cases h : strStartsWith path r.2.1
      · simp [h]
      · simp [h, ih]

theorem strStartsWith_append_drop (p s : String) (h : strStartsWith s p = true) :
    p ++ s.drop p.length = s := by
  unfold strStartsWith at h
  obtain ⟨t, ht⟩ := List.isPrefixOf_iff_prefix.mp h
  apply String.ext
  show (p ++ s.drop p.length).data = s.data
  rw [String.data_append, String.data_drop, ← ht]
  show p.data ++ (p.data ++ t).drop p.data.length = p.data ++ t
  rw [List.drop_left]

theorem bustScan_eq_find (subpath : String) (kw : KW) (pathspec rawspec : String)
    (l : List CacheBusterEntry) :
    bustScan subpath kw pathspec rawspec l =
      match l.find? (fun cb =>
          (cb.explicit && strStartsWith rawspec cb.spec) ||
          (!cb.explicit && strStartsWith pathspec cb.spec)) with
      | some cb => cb.cachebust subpath kw
      | none => (subpath, kw) := by
  induction l with
  | nil => rfl
  | cons cb rest ih =>
      rw [bustScan, List.find?_cons]
      by_cases h : (cb.explicit && strStartsWith rawspec cb.spec) ||
          (!cb.explicit && strStartsWith pathspec cb.spec)
      · simp [h]
      · simp [h, ih]

theorem updateFirst_map {α β : Type} (p : MVEntry α → Bool) (e : MVEntry α)
    (f : MVEntry α → β) :
    ∀ l l', updateFirst p e l = some l' → (∀ x ∈ l, p x = true → f x = f e) →
      l'.map f = l.map f := by
  intro l
  induction l with
  | nil => intro l' h; cases h
  | cons a l ih =>
      intro l' h hf
      rw [updateFirst] at h
      by_cases hpa : p a
      · rw [if_pos hpa] at h
        injection h with h
        subst h
        simp only [List.map_cons]
        rw [hf a (List.mem_cons_self a l) hpa]
      · rw [if_neg hpa] at h
        cases hrec : updateFirst p e l with
        | none => rw [hrec] at h; cases h
        | some l₀ =>
            rw [hrec] at h
            injection h with h
            subst h
            simp only [List.map_cons]
            rw [ih l₀ hrec fun x hx hpx => hf x (List.mem_cons_of_mem a hx) hpx]

theorem updateFirst_none {α : Type} (p : MVEntry α → Bool) (e : MVEntry α) :
    ∀ l, updateFirst p e l = none → ∀ x ∈ l, p x = false := by
  intro l
  induction l with
  | nil => intro _ x hx; cases hx
  | cons a l ih =>
      intro h x hx
      rw [updateFirst] at h
      by_cases hpa : p a
      · rw [if_pos hpa] at h; cases h
      · rw [if_neg hpa] at h
        rcases List.mem_cons.mp hx with rfl | hx
        · exact Bool.eq_false_iff.mpr hpa
        · cases hrec : updateFirst p e l with
          | none => exact ih hrec x hx
          | some l₀ => rw [hrec] at h; cases h

theorem assocGet_mem {β : Type} :
    ∀ (m : List (String × β)) (k : String) (v : β),
      assocGet m k = some v → (k, v) ∈ m := by
  intro m
  induction m with
  | nil => intro k v h; cases h
  | cons kv rest ih =>
      intro k v h
      simp only [assocGet, List.find?_cons] at h
      cases hk : (kv.1 == k) with
      | true =>
          simp only [hk] at h
          injection h with h
          have hk' : kv.1 = k := by simpa using hk
          have : (k, v) = kv := by cases kv; simp_all
          rw [this]
          exact List.mem_cons_self _ _
      | false =>
          simp only [hk] at h
          exact List.mem_cons_of_mem kv (ih k v (by simpa [assocGet] using h))

theorem assocSet_mem {β : Type} :
    ∀ (m : List (String × β)) (k : String) (v : β),
      ∀ kv ∈ assocSet m k v, kv ∈ m ∨ kv = (k, v) := by
  intro m
  induction m with
  | nil =>
      intro k v kv h
      right
      simpa [assocSet] using h
  | cons kv₀ rest ih =>
      intro k v kv h
      rw [assocSet] at h
      by_cases hk : kv₀.1 == k
      · rw [if_pos hk] at h
        rcases List.mem_cons.mp h with rfl | h
        · right; rfl
        · left; exact List.mem_cons_of_mem _ h
      · rw [if_neg hk] at h
        rcases List.mem_cons.mp h with rfl | h
        · left; exact List.mem_cons_self _ _
        · rcases ih k v kv h with h' | h'
          · left; exact List.mem_cons_of_mem _ h'
          · right; exact h'

theorem entryRelOk_symm {α : Type} : Symmetric (@entryRelOk α) := by
  intro x y h q hq hyq hxq
  exact h q hq hxq hyq

theorem sortedByOrder_insertionSort {α : Type} (l : List (MVEntry α)) :
    sortedByOrder (List.insertionSort orderLe l) :=
  List.sorted_insertionSort orderLe l

theorem noDup_append_sorted {α : Type} (l : List (MVEntry α)) (e : MVEntry α)
    (hl : noDupNonDefaultPhash l) (hcross : ∀ x ∈ l, entryRelOk x e) :
    noDupNonDefaultPhash (List.insertionSort orderLe (l ++ [e])) := by
  have hperm := List.perm_insertionSort orderLe (l ++ [e])
  refine (hperm.pairwise_iff fun hxy => entryRelOk_symm hxy).mpr ?_
  rw [List.pairwise_append]
  refine ⟨hl, List.pairwise_singleton _ _, fun x hx y hy => ?_⟩
  rcases List.mem_singleton.mp hy with rfl
  exact hcross x hx

theorem sortedByOrder_of_map_eq {α : Type} {l l' : List (MVEntry α)}
    (h : l'.map (fun e => e.1) = l.map (fun e => e.1)) (hl : sortedByOrder l) :
    sortedByOrder l' := by
  have h2 : List.Pairwise (· ≤ ·) (l'.map fun e => e.1) := by
    rw [h]
    exact List.pairwise_map.mpr hl
  exact (List.pairwise_map (f := fun e : MVEntry α => e.1)).mp h2

theorem noDup_of_map_eq {α : Type} {l l' : List (MVEntry α)}
    (h : l'.map (fun e => e.2.2) = l.map (fun e => e.2.2))
    (hl : noDupNonDefaultPhash l) :
    noDupNonDefaultPhash l' := by
  have h2 : List.Pairwise
      (fun x y : Option String => ∀ p, p ≠ DEFAULT_PHASH → x = some p → y ≠ some p)
      (l'.map fun e => e.2.2) := by
    rw [h]
    exact List.pairwise_map.mpr hl
  exact (List.pairwise_map (f := fun e : MVEntry α => e.2.2)).mp h2

theorem MVInv_append_views {α : Type} (mv : MultiView α) (e : MVEntry α)
    (hs : sortedByOrder mv.views) (hd : noDupNonDefaultPhash mv.views)
    (hm : ∀ kl ∈ mv.media_views, sortedByOrder kl.2 ∧ noDupNonDefaultPhash kl.2)
    (hcross : ∀ x ∈ mv.views, entryRelOk x e) :
    MVInv { mv with views := List.insertionSort orderLe (mv.views ++ [e]) } :=
  ⟨sortedByOrder_insertionSort _, noDup_append_sorted _ _ hd hcross, hm⟩

theorem MVInv_replace_media {α : Type} (mv : MultiView α) (v : α) (order : Nat)
    (phash : Option String) (a : String) (subset' : List (MVEntry α))
    (hs : sortedByOrder mv.views) (hd : noDupNonDefaultPhash mv.views)
    (hm : ∀ kl ∈ mv.media_views, sortedByOrder kl.2 ∧ noDupNonDefaultPhash kl.2)
    (hordm : ∀ kl ∈ mv.media_views, ∀ e ∈ kl.2, e.2.2 = phash → e.1 = order)
    (hupds : updateFirst (fun svh => svh.2.2 == phash) (order, v, phash)
        ((assocGet mv.media_views a).getD []) = some subset') :
    MVInv { mv with media_views := assocSet mv.media_views a subset' } := by
  refine ⟨hs, hd, ?_⟩
  intro kl hkl
  rcases assocSet_mem _ _ _ kl hkl with h' | h'
  · exact hm kl h'
  · subst h'
    cases hg : assocGet mv.media_views a with
    | none => rw [hg] at hupds; cases hupds
    | some l₀ =>
        rw [hg] at hupds
        have hmem := assocGet_mem _ _ _ hg
        obtain ⟨hs₀, hd₀⟩ := hm _ hmem
        refine ⟨sortedByOrder_of_map_eq (updateFirst_map _ _ _ _ _ hupds ?_) hs₀,
                noDup_of_map_eq (updateFirst_map _ _ _ _ _ hupds ?_) hd₀⟩
        · intro x hx hpx
          exact hordm _ hmem x hx (by simpa using hpx)
        · intro x hx hpx
          simpa using hpx

theorem MVInv_append_media {α : Type} (mv : MultiView α) (v : α) (order : Nat)
    (phash : Option String) (a : String) (accepts' : List String)
    (hs : sortedByOrder mv.views) (hd : noDupNonDefaultPhash mv.views)
    (hm : ∀ kl ∈ mv.media_views, sortedByOrder kl.2 ∧ noDupNonDefaultPhash kl.2)
    (hcross : ∀ x ∈ (assocGet mv.media_views a).getD [], entryRelOk x (order, v, phash)) :
    MVInv { mv with
      media_views := assocSet mv.media_views a
        (List.insertionSort orderLe
          (((assocGet mv.media_views a).getD []) ++ [(order, v, phash)])),
      accepts := accepts' } := by
  refine ⟨hs, hd, ?_⟩
  intro kl hkl
  rcases assocSet_mem _ _ _ kl hkl with h' | h'
  · exact hm kl h'
  · subst h'
    have hsub : sortedByOrder ((assocGet mv.media_views a).getD []) ∧
        noDupNonDefaultPhash ((assocGet mv.media_views a).getD []) := by
      cases hg : assocGet mv.media_views a with
      | none => exact ⟨List.sorted_nil, List.Pairwise.nil⟩
      | some l₀ => exact hm _ (assocGet_mem _ _ _ hg)
    exact ⟨sortedByOrder_insertionSort _, noDup_append_sorted _ _ hsub.2 hcross⟩

theorem registeredOld_mkSingle (v : DView) :
    (mkSingle v).registeredOld = some (.single v) := by
  unfold mkSingle TriadState.registeredOld
  by_cases h : v.securable <;> simp [h]

theorem mem_allViews_of_views {α : Type} {mv : MultiView α} {e : MVEntry α}
    (h : e ∈ mv.views) : e.2.1 ∈ allViews mv :=
  List.mem_append_left _ (List.mem_map_of_mem _ h)

theorem mem_allViews_of_media {α : Type} {mv : MultiView α}
    {w : String × List (MVEntry α)} (hw : w ∈ mv.media_views) {e : MVEntry α}
    (h : e ∈ w.2) : e.2.1 ∈ allViews mv :=
  List.mem_append_right _ (List.mem_flatMap.mpr ⟨w, hw, List.mem_map_of_mem _ h⟩)

theorem assocSet_self_mem {β : Type} :
    ∀ (m : List (String × β)) (k : String) (v : β), (k, v) ∈ assocSet m k v := by
  intro m
  induction m with
  | nil => intro k v; exact List.mem_singleton.mpr rfl
  | cons kv₀ rest ih =>
      intro k v
      rw [assocSet]
      by_cases hk : kv₀.1 == k
      · rw [if_pos hk]; exact List.mem_cons_self _ _
      · rw [if_neg hk]; exact List.mem_cons_of_mem _ (ih k v)

theorem mem_allViews_two_adds {α : Type} (name : String) (ov dv : α) (o1 o2 : Nat)
    (h1 h2 : String) (a1 a2 : Option String)
    (ao : Option (List (Nat × String)))
    (so : List String → Option (List String) → List String)
    (hne : h1 ≠ h2) :
    dv ∈ allViews (((MultiView.mk name [] [] []).add ov o1 (some h1) a1 none so).add
        dv o2 (some h2) a2 ao so) ∧
    ov ∈ allViews (((MultiView.mk name [] [] []).add ov o1 (some h1) a1 none so).add
        dv o2 (some h2) a2 ao so) := by
  have hb : ((some h1 : Option String) == some h2) = false := by
    simp [hne]
  cases a1 with
  | none =>
      have hmv1 : (MultiView.mk name [] [] []).add ov o1 (some h1) none none so =
          ⟨name, [], [(o1, ov, some h1)], []⟩ := rfl
      rw [hmv1]
      have hupd : updateFirst (fun svh => svh.2.2 == some h2) (o2, dv, some h2)
          [(o1, ov, some h1)] = none := by
        simp [updateFirst, hb]
      cases a2 with
      | none =>
          simp only [MultiView.add, hupd]
          constructor
          · exact mem_allViews_of_views (e := (o2, dv, some h2))
              ((List.mem_insertionSort _).mpr
                (List.mem_append_right _ (List.mem_singleton.mpr rfl)))
          · exact mem_allViews_of_views (e := (o1, ov, some h1))
              ((List.mem_insertionSort _).mpr
                (List.mem_append_left _ (List.mem_singleton.mpr rfl)))
      | some b =>
          simp only [MultiView.add, updateFirst, hb, assocGet, List.find?_nil,
            Option.map_none', Option.getD_none]
          constructor
          · refine mem_allViews_of_media (e := (o2, dv, some h2))
              (assocSet_self_mem _ _ _) ?_
            exact (List.mem_insertionSort _).mpr (List.mem_singleton.mpr rfl)
          · exact mem_allViews_of_views (e := (o1, ov, some h1))
              (List.mem_singleton.mpr rfl)
  | some a =>
      have hmv1 : (MultiView.mk name [] [] []).add ov o1 (some h1) (some a) none so =
          ⟨name, [(a, [(o1, ov, some h1)])], [], so [a] none⟩ := rfl
      rw [hmv1]
      cases a2 with
      | none =>
          simp only [MultiView.add, updateFirst]
          constructor
          · exact mem_allViews_of_views (e := (o2, dv, some h2))
              ((List.mem_insertionSort _).mpr (List.mem_singleton.mpr rfl))
          · exact mem_allViews_of_media (e := (o1, ov, some h1))
              (w := (a, [(o1, ov, some h1)]))
              (List.mem_singleton.mpr rfl) (List.mem_singleton.mpr rfl)
      | some b =>
          by_cases hab : a = b
          · subst hab
            have hsubget : (assocGet [(a, [(o1, ov, some h1)])] a).getD [] =
                [(o1, ov, some h1)] := by simp [assocGet]
            simp only [MultiView.add, updateFirst, hb, hsubget, Option.map_none']
            constructor
            · refine mem_allViews_of_media (e := (o2, dv, some h2))
                (assocSet_self_mem _ _ _) ?_
              exact (List.mem_insertionSort _).mpr
                (List.mem_append_right _ (List.mem_singleton.mpr rfl))
            · refine mem_allViews_of_media (e := (o1, ov, some h1))
                (assocSet_self_mem _ _ _) ?_
              exact (List.mem_insertionSort _).mpr
                (List.mem_append_left _ (List.mem_singleton.mpr rfl))
          · have hab' : (a == b) = false := by simp [hab]
            have hsubget : (assocGet [(a, [(o1, ov, some h1)])] b).getD [] =
                ([] : List (MVEntry α)) := by
              simp [assocGet, List.find?_cons, hab']
            simp only [MultiView.add, updateFirst, hsubget]
            constructor
            · refine mem_allViews_of_media (e := (o2, dv, some h2))
                (assocSet_self_mem _ _ _) ?_
              exact (List.mem_insertionSort _).mpr (List.mem_singleton.mpr rfl)
            · refine mem_allViews_of_media (e := (o1, ov, some h1))
                (w := (a, [(o1, ov, some h1)])) ?_ (List.mem_singleton.mpr rfl)
              show (a, [(o1, ov, some h1)]) ∈ assocSet [(a, [(o1, ov, some h1)])] b _
              simp [assocSet, hab']

/-! ### Claim theorems -/

/-- C1: for every context and request, `MultiView.match` returns the first
view in the sequence produced by `get_views(request)` (the media-type
views for each acceptable offer, followed by the non-accept views) that
either has no `__predicated__` attribute or whose
`__predicated__(context, request)` returns true; if no view in that
sequence qualifies, `match` raises `PredicateMismatch`. -/
theorem C1_multiview_match (mv : MultiView CView) (context : Nat) (request : MvRequest) :
    (mv.match' context request =
      match (mv.get_views request).find? (viewQualifies context request) with
      | some e => .ok e.2.1
      | none => .error ⟨mv.name⟩) ∧
    mv.get_views request =
      (if mv.accepts ≠ [] ∧ request.hasAccept then
        ((request.acceptableOffers mv.accepts).flatMap fun om =>
          (assocGet mv.media_views om.1).getD []) ++ mv.views
      else mv.views) :=
  ⟨matchGo_eq_find context request mv.name (mv.get_views request), rfl⟩

/-- C3: after `add_default_view_derivers` has run, the deriver chain
around the user view, listed from outermost (request ingress) to
innermost (user view), is `attr_wrapped_view, predicated_view,
secured_view, csrf_view, owrapped_view, http_cached_view,
decorated_view, rendered_view, mapped_view`. -/
theorem C3_default_deriver_chain :
    (add_default_view_derivers.map fun nodes => _apply_view_derivers (topoSorted nodes)) =
      .ok ["attr_wrapped_view", "predicated_view", "secured_view", "csrf_view",
           "owrapped_view", "http_cached_view", "decorated_view", "rendered_view",
           "mapped_view"] := by
  decide

/-- C7: `add_view_deriver` raises `ConfigurationError` exactly when the
name is `INGRESS` or `VIEW`, the (normalized) `over` constraint contains
`INGRESS`, or the (normalized) `under` constraint contains `VIEW` or
`mapped_view`; and every successfully registered deriver other than
`mapped_view` whose `over` constraint contains `VIEW` gets `mapped_view`
added to its `over` constraint. -/
theorem C7_add_view_deriver_errors (name : String) (under over : Option (List String)) :
    (exceptIsError (add_view_deriver name under over) = true ↔
      (name = INGRESS ∨ name = VIEW ∨
        INGRESS ∈ as_sorted_tuple (over.getD ["rendered_view"]) ∨
        VIEW ∈ as_sorted_tuple (under.getD ["decorated_view"]) ∨
        "mapped_view" ∈ as_sorted_tuple (under.getD ["decorated_view"]))) ∧
    (∀ d, add_view_deriver name under over = .ok d →
      VIEW ∈ as_sorted_tuple (over.getD ["rendered_view"]) → name ≠ "mapped_view" →
      "mapped_view" ∈ d.over) := by
  constructor
  · simp only [add_view_deriver]
    split_ifs with h1 h2 h3 h4 h5 <;> simp_all [exceptIsError] <;> tauto
  · intro d hd hV hn
    simp only [add_view_deriver] at hd
    split_ifs at hd with h1 h2 h3 h4 h5 <;>
      first
        | exact Except.noConfusion hd
        | exact absurd (And.intro hV hn) (by assumption)
        | (injection hd with h; subst h;
           simp [as_sorted_tuple, List.mem_insertionSort])

/-- C8: for every asset path, `StaticURLInfo.generate` builds the URL
using the first registration, in registration-list order, whose spec is
a prefix of the path (the remainder of the path past the spec is the
subpath handed to the URL-building body), and raises `ValueError` if and
only if no registration's spec is a prefix of the path. -/
theorem C8_generate (info : StaticURLInfo) (env : UrlEnv) (path : String) (kw : KW) :
    (info.generate env path kw =
      match info.registrations.find? (fun reg => strStartsWith path reg.2.1) with
      | some reg => .ok (generateBody info env kw reg.1 reg.2.1 reg.2.2 path)
      | none => .error (.valueError path)) ∧
    (info.generate env path kw = .error (.valueError path) ↔
      ∀ reg ∈ info.registrations, ¬ strStartsWith path reg.2.1) ∧
    (∀ reg ∈ info.registrations, strStartsWith path reg.2.1 = true →
      reg.2.1 ++ path.drop reg.2.1.length = path) := by
  refine ⟨generateGo_eq_find info env kw path info.registrations, ?_, ?_⟩
  · unfold StaticURLInfo.generate
    rw [generateGo_eq_find]
    cases hf : info.registrations.find? (fun reg => strStartsWith path reg.2.1) with
    | some reg =>
        have hm := List.mem_of_find?_eq_some hf
        have hp := List.find?_some hf
        constructor
        · intro h; exact Except.noConfusion h
        · intro hall; exact absurd (by simpa using hp) (by simpa using hall reg hm)
    | none =>
        constructor
        · intro _ reg hreg
          simpa using List.find?_eq_none.mp hf reg hreg
        · intro _; rfl
  · intro reg _ h
    exact strStartsWith_append_drop reg.2.1 path h

/-- C10 (amended): `_bust_asset_path` applies at most one cache buster
per generated URL: scanning the stored cache busters in reverse of their
stored list order, the first one whose spec is a prefix of the computed
pathspec (or of the rawspec, for an explicit buster) is applied and the
scan stops; if no cache buster matches, the subpath is returned
unchanged. -/
theorem C10_bust_first_in_reverse_order (info : StaticURLInfo) (env : UrlEnv)
    (spec subpath : String) (kw : KW) :
    info._bust_asset_path env spec subpath kw =
      (let pk := resolve_asset_spec spec
       let pathspec :=
         match pk.1 with
         | some p => p ++ ":" ++ pk.2 ++ subpath
         | none => pk.2 ++ subpath
       let rawspec :=
         (match pk.1 with
          | some p => env.rawspecOverride p (posixpathJoin pk.2 subpath)
          | none => none).getD pathspec
       let kw2 := assocSet (assocSet kw "pathspec" pathspec) "rawspec" rawspec
       match info.cache_busters.reverse.find? (fun cb =>
           (cb.explicit && strStartsWith rawspec cb.spec) ||
           (!cb.explicit && strStartsWith pathspec cb.spec)) with
       | some cb => cb.cachebust subpath kw2
       | none => (subpath, kw2)) := by
  unfold StaticURLInfo._bust_asset_path
  exact bustScan_eq_find _ _ _ _ _

/-- C10 counterexample: the stored buster list is `[p:a/, p:a/b/]`, so
the most recently inserted buster is the `p:a/` one (`cbTWO`), whose
spec is a prefix of the computed pathspec `p:a/b/x`; yet
`_bust_asset_path` applies the least recently inserted `p:a/b/` buster
(`cbONE`), because the scan runs over the reversed *stored* order, not
over insertion recency. -/
theorem C10_counterexample :
    (infoCB.cache_busters.map fun cb => cb.spec) = ["p:a/", "p:a/b/"] ∧
    strStartsWith "p:a/b/x" "p:a/" = true ∧
    (infoCB._bust_asset_path envW "p:a/" "b/x" []).1 = "ONE/b/x" ∧
    (cbTWO "b/x" []).1 = "TWO/b/x" ∧
    ("ONE/b/x" : String) ≠ "TWO/b/x" :=
  ⟨rfl, rfl, rfl, rfl, by decide⟩

/-- C2: over the file list produced by `get_possible_files` (sorted by
ascending size): with no `Accept-Encoding` header, `find_best_match`
returns the identity entry, or `(None, None)` when no identity entry
exists; with an `Accept-Encoding` header it returns a smallest file
whose encoding is `None` or acceptable to the client, and
`(None, None)` when no entry is acceptable. -/
theorem C2_find_best_match (sv : static_view) (fs : FileSystem)
    (resource_name : String) (request : StaticRequest) :
    (request.acceptEncoding = none →
      ((∃ p, (p, (none : Option String)) ∈ sv.get_possible_files fs resource_name ∧
          sv.find_best_match request (sv.get_possible_files fs resource_name) =
            (some p, none)) ∨
       ((∀ pe ∈ sv.get_possible_files fs resource_name, pe.2 ≠ none) ∧
          sv.find_best_match request (sv.get_possible_files fs resource_name) =
            (none, none)))) ∧
    (∀ ae, request.acceptEncoding = some ae →
      ((∃ pe ∈ sv.get_possible_files fs resource_name,
          encodingAcceptable ae (sv.get_possible_files fs resource_name) pe.2 ∧
          sv.find_best_match request (sv.get_possible_files fs resource_name) =
            (some pe.1, pe.2) ∧
          ∀ qe ∈ sv.get_possible_files fs resource_name,
            encodingAcceptable ae (sv.get_possible_files fs resource_name) qe.2 →
            fs.getsize pe.1 ≤ fs.getsize qe.1) ∨
       ((∀ pe ∈ sv.get_possible_files fs resource_name,
           ¬ encodingAcceptable ae (sv.get_possible_files fs resource_name) pe.2) ∧
          sv.find_best_match request (sv.get_possible_files fs resource_name) =
            (none, none)))) := by
  constructor
  · intro h
    simp only [static_view.find_best_match, h]
    cases hf : (sv.get_possible_files fs resource_name).find? (fun pe => pe.2.isNone) with
    | some pe =>
        left
        have hm := List.mem_of_find?_eq_some hf
        have hp : pe.2 = none := by simpa using List.find?_some hf
        refine ⟨pe.1, ?_, rfl⟩
        rw [← hp]
        exact hm
    | none =>
        right
        constructor
        · intro pe hpe
          simpa using List.find?_eq_none.mp hf pe hpe
        · rfl
  · intro ae h
    simp only [static_view.find_best_match, h]
    split
    · rename_i pe heq
      left
      have hm := List.mem_of_find?_eq_some heq
      have hp := List.find?_some heq
      refine ⟨pe, hm,
        (encodingAcceptable_iff ae (sv.get_possible_files fs resource_name) pe).mp hp,
        rfl, ?_⟩
      intro qe hqe hqacc
      exact find?_min_of_sorted (fun pe => fs.getsize pe.1) _
        (sv.get_possible_files fs resource_name)
        (get_possible_files_sorted sv fs resource_name) pe heq qe hqe
        ((encodingAcceptable_iff ae (sv.get_possible_files fs resource_name) qe).mpr hqacc)
    · rename_i heq
      right
      refine ⟨?_, rfl⟩
      intro pe hpe hacc
      exact absurd
        ((encodingAcceptable_iff ae (sv.get_possible_files fs resource_name) pe).mpr hacc)
        (by simpa using List.find?_eq_none.mp heq pe hpe)

/-- C2 witness: on a file system where the identity file exists and with
no `Accept-Encoding` header, `find_best_match` picks the identity
entry. -/
theorem C2_witness :
    ∃ p, (p, (none : Option String)) ∈ svPlain.get_possible_files fsOne "root/a.txt" ∧
      svPlain.find_best_match reqNoAE (svPlain.get_possible_files fsOne "root/a.txt") =
        (some p, none) := by
  rcases (C2_find_best_match svPlain fsOne "root/a.txt" reqNoAE).1 rfl with h | h
  · exact h
  · exact absurd rfl (h.1 ("root/a.txt", none) (by decide))

/-- C6: `static_view.__call__` raises `HTTPNotFound` when no acceptable
file variant exists for the resolved resource name; otherwise it returns
a `FileResponse` built from the configured `cache_max_age`, the selected
path and encoding and the content type guessed from the resource name,
whose `Vary` header contains `Accept-Encoding` iff more than one file
variant was found. -/
theorem C6_static_call (sv : static_view) (fs : FileSystem) (req : StaticRequest) :
    (∀ name, sv.get_resource_name fs req = .ok name →
      (sv.find_best_match req (sv.get_possible_files fs name)).1 = none →
      sv.call fs () req = .error (.httpNotFound req.url)) ∧
    (∀ name fp enc, sv.get_resource_name fs req = .ok name →
      sv.find_best_match req (sv.get_possible_files fs name) = (some fp, enc) →
      sv.call fs () req = .ok
        { path := fp, cache_max_age := sv.cache_max_age,
          content_type := fs.guessType name, content_encoding := enc,
          vary := if (sv.get_possible_files fs name).length > 1
                  then some ["Accept-Encoding"] else none } ∧
      ((∃ l, (if (sv.get_possible_files fs name).length > 1
              then some ["Accept-Encoding"] else (none : Option (List String))) = some l ∧
          "Accept-Encoding" ∈ l) ↔
        1 < (sv.get_possible_files fs name).length)) := by
  constructor
  · intro name h hfb
    simp only [static_view.call, h]
    rw [hfb]
  · intro name fp enc h hfb
    constructor
    · simp only [static_view.call, h, hfb]
      by_cases hl : (sv.get_possible_files fs name).length > 1
      · simp [hl, _add_vary, FileResponse]
      · simp [hl, FileResponse]
    · by_cases hl : (sv.get_possible_files fs name).length > 1
      · simp only [if_pos hl]
        exact ⟨fun _ => hl, fun _ => ⟨["Accept-Encoding"], rfl, List.mem_singleton.mpr rfl⟩⟩
      · simp only [if_neg hl]
        constructor
        · rintro ⟨l, hl', _⟩; cases hl'
        · intro h1; exact absurd h1 hl

/-- C6 witness: serving `a.txt` over a file system with a single
variant yields the file response with no `Vary` header. -/
theorem C6_witness :
    svPlain.call fsOne () reqNoAE =
      .ok ⟨"root/a.txt", some 3600, some "text/plain", none, none⟩ := by
  have h := ((C6_static_call svPlain fsOne reqNoAE).2 "root/a.txt" "root/a.txt" none
    rfl rfl).1
  simpa using h

/-- C4 (amended): when `add_view` registers a view for a triad already
holding a registered single (non-multiview) view: if the new view's
predicate hash equals the existing view's and the two views agree on
securedness (presence of `__call_permissive__`), the existing
registration is replaced and the triad still maps to the single new
view; if the predicate hashes differ, the triad is re-registered as a
`MultiView` containing both the old and the new view. -/
theorem C4_register_view (old dv : DView) (order : Nat) (phash : String)
    (accept : Option String) (ao : Option (List (Nat × String)))
    (so : List String → Option (List String) → List String) (name : String) :
    (old.phash.getD DEFAULT_PHASH = phash → old.securable = dv.securable →
      register_view (mkSingle old) dv order phash accept ao so name = mkSingle dv ∧
      (register_view (mkSingle old) dv order phash accept ao so name).registeredOld =
        some (.single dv)) ∧
    (old.phash.getD DEFAULT_PHASH ≠ phash →
      ∃ m, register_view (mkSingle old) dv order phash accept ao so name =
          ⟨none, none, some m⟩ ∧ dv ∈ allViews m ∧ old ∈ allViews m) := by
  have hro := registeredOld_mkSingle old
  constructor
  · intro heq hsec
    have heqn : register_view (mkSingle old) dv order phash accept ao so name =
        mkSingle dv := by
      by_cases hDsec : dv.securable
      · have hOsec : old.securable = true := hsec.trans hDsec
        simp [register_view, TriadState.registeredOld, heq, mkSingle, hOsec, hDsec]
      · have hDf : dv.securable = false := Bool.eq_false_iff.mpr hDsec
        have hOsec : old.securable = false := by rw [hsec, hDf]
        simp [register_view, TriadState.registeredOld, heq, mkSingle, hOsec, hDf]
    refine ⟨heqn, ?_⟩
    rw [heqn]
    exact registeredOld_mkSingle dv
  · intro hne
    have hb2 : (old.phash.getD DEFAULT_PHASH != phash) = true := bne_iff_ne.mpr hne
    refine ⟨((MultiView.mk name [] [] []).add old (old.order.getD MAX_ORDER)
        (some (old.phash.getD DEFAULT_PHASH)) old.accept none so).add
        dv order (some phash) accept ao so, ?_,
      (mem_allViews_two_adds name old dv (old.order.getD MAX_ORDER) order
        (old.phash.getD DEFAULT_PHASH) phash old.accept accept ao so hne).1,
      (mem_allViews_two_adds name old dv (old.order.getD MAX_ORDER) order
        (old.phash.getD DEFAULT_PHASH) phash old.accept accept ao so hne).2⟩
    simp [register_view, hro, hb2]

/-- C4 counterexample: the triad holds the unsecured view `oldU` under
`IView` with hash `p`; registering the secured view `newS` with the same
hash `p` stores `newS` under `ISecuredView` but leaves `oldU` registered
under `IView`, and the triad's lookup still resolves to `oldU`: the
existing registration is not replaced, contradicting the claim. -/
theorem C4_counterexample :
    register_view (mkSingle oldU) newS 1 "p" none none (fun s _ => s) "n" =
      ⟨some oldU, some newS, none⟩ ∧
    (⟨some oldU, some newS, none⟩ : TriadState).registeredOld =
      some (.single oldU) ∧
    oldU ≠ newS := ⟨rfl, rfl, by decide⟩

/-- C4 witness: re-registering a same-hash, same-securedness view
replaces the old single registration. -/
theorem C4_witness :
    register_view (mkSingle oldU) dvU 1 "p" none none (fun s _ => s) "n" =
      mkSingle dvU :=
  ((C4_register_view oldU dvU 1 "p" none none (fun s _ => s) "n").1 rfl rfl).1

/-- C5 (amended): after every call to `MultiView.add` from a state whose
lists are sorted by ascending order and duplicate-free in non-default
hashes, and whose replaced entry (if the call replaces one with the same
predicate hash) carries the same order value — as is the case for the
calls made by `register_view`, where equal predicate hashes imply equal
order — the `views` list and every `media_views` list are again sorted
by ascending order and no list contains two entries with the same
non-default predicate hash. -/
theorem C5_add_invariant {α : Type} (mv : MultiView α) (v : α) (order : Nat)
    (phash : Option String) (accept : Option String)
    (ao : Option (List (Nat × String)))
    (so : List String → Option (List String) → List String)
    (hinv : MVInv mv)
    (hord : ∀ e ∈ mv.views, e.2.2 = phash → e.1 = order)
    (hordm : ∀ kl ∈ mv.media_views, ∀ e ∈ kl.2, e.2.2 = phash → e.1 = order) :
    MVInv (mv.add v order phash accept ao so) := by
  obtain ⟨hs, hd, hm⟩ := hinv
  cases hph : phash with
  | some p =>
      subst hph
      cases hupd : updateFirst (fun svh => svh.2.2 == some p) (order, v, some p) mv.views with
      | some views' =>
          -- an existing same-phash entry in `views` is replaced in place
          simp only [MultiView.add, hupd]
          refine ⟨?_, ?_, hm⟩
          · refine sortedByOrder_of_map_eq (updateFirst_map _ _ _ _ _ hupd ?_) hs
            intro x hx hpx
            exact hord x hx (by simpa using hpx)
          · refine noDup_of_map_eq (updateFirst_map _ _ _ _ _ hupd ?_) hd
            intro x hx hpx
            simpa using hpx
      | none =>
          have hcross : ∀ x ∈ mv.views, entryRelOk x (order, v, some p) := by
            intro x hx q hq hxq hvq
            have hbeq := updateFirst_none _ _ _ hupd x hx
            obtain rfl : p = q := by simpa using hvq
            rw [hxq] at hbeq
            simp at hbeq
          cases hacc : accept with
          | none =>
              simp only [MultiView.add, hupd]
              exact MVInv_append_views mv _ hs hd hm hcross
          | some a =>
              cases hupds : updateFirst (fun svh => svh.2.2 == some p)
                  (order, v, some p) ((assocGet mv.media_views a).getD []) with
              | some subset' =>
                  simp only [MultiView.add, hupd, hupds]
                  exact MVInv_replace_media mv v order (some p) a subset' hs hd hm hordm hupds
              | none =>
                  simp only [MultiView.add, hupd, hupds]
                  refine MVInv_append_media mv v order (some p) a _ hs hd hm ?_
                  intro x hx q hq hxq hvq
                  have hbeq := updateFirst_none _ _ _ hupds x hx
                  obtain rfl : p = q := by simpa using hvq
                  rw [hxq] at hbeq
                  simp at hbeq
  | none =>
      subst hph
      have hcross : ∀ (l : List (MVEntry α)), ∀ x ∈ l,
          entryRelOk x (order, v, (none : Option String)) := by
        intro l x hx q hq hxq hvq
        cases hvq
      cases hupd : updateFirst (fun svh => svh.2.2 == (none : Option String))
          (order, v, (none : Option String)) mv.views with
      | some views' =>
          cases hacc : accept with
          | none =>
              simp only [MultiView.add, hupd]
              exact MVInv_append_views mv _ hs hd hm (hcross mv.views)
          | some a =>
              cases hupds : updateFirst (fun svh => svh.2.2 == (none : Option String))
                  (order, v, (none : Option String))
                  ((assocGet mv.media_views a).getD []) with
              | some subset' =>
                  simp only [MultiView.add, hupd, hupds]
                  exact MVInv_replace_media mv v order none a subset' hs hd hm hordm hupds
              | none =>
                  simp only [MultiView.add, hupd, hupds]
                  exact MVInv_append_media mv v order none a _ hs hd hm (hcross _)
      | none =>
          cases hacc : accept with
          | none =>
              simp only [MultiView.add, hupd]
              exact MVInv_append_views mv _ hs hd hm (hcross mv.views)
          | some a =>
              cases hupds : updateFirst (fun svh => svh.2.2 == (none : Option String))
                  (order, v, (none : Option String))
                  ((assocGet mv.media_views a).getD []) with
              | some subset' =>
                  simp only [MultiView.add, hupd, hupds]
                  exact MVInv_replace_media mv v order none a subset' hs hd hm hordm hupds
              | none =>
                  simp only [MultiView.add, hupd, hupds]
                  exact MVInv_append_media mv v order none a _ hs hd hm (hcross _)

/-- The `mvCE` state satisfies the C5 invariant. -/
theorem mvCE_inv : MVInv mvCE := by
  refine ⟨?_, ?_, ?_⟩
  · show List.Sorted orderLe [(1, 10, some "p1"), (2, 20, some "p2")]
    refine List.pairwise_cons.mpr ⟨?_, List.pairwise_singleton _ _⟩
    intro e he
    rcases List.mem_singleton.mp he with rfl
    decide
  · show List.Pairwise entryRelOk [(1, 10, some "p1"), (2, 20, some "p2")]
    refine List.pairwise_cons.mpr ⟨?_, List.pairwise_singleton _ _⟩
    intro e he
    rcases List.mem_singleton.mp he with rfl
    intro q hq h1 h2
    obtain rfl := Option.some.inj h1
    exact absurd (Option.some.inj h2) (by decide)
  · intro kl hkl
    cases hkl

/-- C5 counterexample: from the sorted, duplicate-free state `mvCE`,
adding a view with the existing hash `p1` but a larger order value `5`
replaces the `(1, _, p1)` entry in place without re-sorting, leaving
`views = [(5, _, p1), (2, _, p2)]`, which is not sorted by ascending
order as the claim requires of every `MultiView.add` call. -/
theorem C5_counterexample :
    MVInv mvCE ∧
    ¬ sortedByOrder ((mvCE.add 30 5 (some "p1") none none fun s _ => s).views) := by
  refine ⟨mvCE_inv, ?_⟩
  intro hsorted
  have hv : (mvCE.add 30 5 (some "p1") none none fun s _ => s).views =
      [(5, 30, some "p1"), (2, 20, some "p2")] := rfl
  rw [hv] at hsorted
  have := (List.pairwise_cons.mp hsorted).1 (2, 20, some "p2") (List.mem_singleton.mpr rfl)
  simp [orderLe] at this

/-- C5 witness: adding a fresh hash `p3` to `mvCE` keeps the invariant. -/
theorem C5_witness : MVInv (mvCE.add 30 5 (some "p3") none none fun s _ => s) :=
  C5_add_invariant mvCE 30 5 (some "p3") none none (fun s _ => s) mvCE_inv
    (by decide) (by intro kl hkl; cases hkl)

/-- C9: `_secure_path` returns `none` exactly when the tuple has an
element equal to `..`, `.` or the empty string, or containing `/` or the
OS path separator; otherwise it joins the elements with `/`; and
`get_resource_name` raises `HTTPNotFound` whenever `_secure_path`
returns `none`. -/
theorem C9_secure_path_guard :
    (∀ t : List String, (_secure_path t = none ↔
      ∃ i ∈ t, i = ".." ∨ i = "." ∨ i = "" ∨ i.data.contains '/' = true ∨
        i.data.contains os_sep = true)) ∧
    (∀ t : List String, _secure_path t ≠ none →
      _secure_path t = some (String.intercalate "/" t)) ∧
    (∀ (sv : static_view) (fs : FileSystem) (req : StaticRequest),
      _secure_path (if sv.use_subpath then req.subpath else req.pathInfoTraversal) = none →
      sv.get_resource_name fs req = .error (.httpNotFound ("Out of bounds: " ++ req.url))) := by
  refine ⟨?_, ?_, ?_⟩
  · intro t
    unfold _secure_path
    split_ifs with h1 h2
    · simp only [true_iff]
      obtain ⟨i, hi, hc⟩ := (hip_iff t).mp h1
      exact ⟨i, hi, by tauto⟩
    · simp only [true_iff]
      obtain ⟨i, hi, hc⟩ := List.any_eq_true.mp h2
      obtain hc | hc := (contains_slash_iff i).mp hc <;> exact ⟨i, hi, by tauto⟩
    · simp only [reduceCtorEq, false_iff]
      rintro ⟨i, hi, hc | hc | hc | hc | hc⟩
      · exact h1 ((hip_iff t).mpr ⟨i, hi, Or.inl hc⟩)
      · exact h1 ((hip_iff t).mpr ⟨i, hi, Or.inr (Or.inl hc)⟩)
      · exact h1 ((hip_iff t).mpr ⟨i, hi, Or.inr (Or.inr hc)⟩)
      · exact h2 (List.any_eq_true.mpr ⟨i, hi, (contains_slash_iff i).mpr (Or.inl hc)⟩)
      · exact h2 (List.any_eq_true.mpr ⟨i, hi, (contains_slash_iff i).mpr (Or.inr hc)⟩)
  · intro t h
    unfold _secure_path at h ⊢
    split_ifs at h ⊢
    · exact absurd rfl h
    · exact absurd rfl h
    · rfl
  · intro sv fs req h
    simp only [static_view.get_resource_name, h]

/-- C9 witness: a request whose subpath contains `..` is answered with
`HTTPNotFound` by `get_resource_name`. -/
theorem C9_witness :
    svPlain.get_resource_name fsEmpty reqDotDot =
      .error (.httpNotFound ("Out of bounds: " ++ reqDotDot.url)) :=
  C9_secure_path_guard.2.2 svPlain fsEmpty reqDotDot rfl

/-- C7 witness: the deriver `x` registered with `over=VIEW` succeeds and
gets `mapped_view` added to its `over` constraint. -/
theorem C7_witness :
    "mapped_view" ∈ (⟨"x", ["VIEW", "mapped_view"], ["decorated_view"]⟩ : DeriverDecl).over :=
  (C7_add_view_deriver_errors "x" none (some [VIEW])).2
    ⟨"x", ["VIEW", "mapped_view"], ["decorated_view"]⟩ rfl (by decide) (by decide)

/-- C8 witness: for the path `st/a.css`, matched by the `st/`
registration, the subpath is the remainder `a.css`. -/
theorem C8_witness :
    "st/" ++ ("st/a.css".drop "st/".length) = "st/a.css" :=
  (C8_generate infoReg envW "st/a.css" []).2.2 (some "http://cdn/", "st/", none)
    (by decide) (by decide)

end Pyramid
